import Mathlib

/-!
Verification of the GRB time-resolved spectral-analysis pipeline
(`src/t90_calculator.py`, `src/burst_detector.py`, `src/gbm_analysis.py`,
`src/spectral_fitter.py`, `src/results_manager.py`).

The Python code is shallowly embedded over exact rationals: numpy float
arrays become `List ℚ`, NaN-producing float operations are made explicit
(`Option ℚ`, dedicated outcome constructors), and the numpy primitives the
code relies on (`np.percentile`, `np.interp`, `np.arange`, `np.std`,
`np.cumsum`) are translated from numpy's documented/implemented behaviour at
the exact call-site shapes used by the code.
-/

namespace GRB

/-- `np.mean` of a list of rationals; numpy yields NaN on an empty array, so
callers that can receive an empty array guard emptiness separately. -/
def npMean (l : List ℚ) : ℚ := l.sum / l.length

/-- Population variance, i.e. `np.std(l)**2` with numpy's default `ddof=0`.
The code compares counts against `bkg + sigma * np.std(below)`; we carry the
variance (a rational) and decide the comparison against the square root
exactly in `sampleExceeds`. -/
def popVar (l : List ℚ) : ℚ := (l.map (fun c => (c - npMean l) ^ 2)).sum / l.length

/-- `np.percentile(l, q)` with numpy's default linear-interpolation method:
sort ascending, let `h = (n-1) * q / 100`, and interpolate linearly between
the order statistics at `⌊h⌋` and `⌊h⌋ + 1` (clamping at the top). -/
def npPercentile (l : List ℚ) (q : ℚ) : ℚ :=
  let s := l.mergeSort (fun a b => decide (a ≤ b))
  let n := s.length
  let h := ((n : ℚ) - 1) * q / 100
  let i := (⌊h⌋).toNat
  if i + 1 < n then s.getD i 0 + (h - (i : ℚ)) * (s.getD (i + 1) 0 - s.getD i 0)
  else s.getD (n - 1) 0

/-- `np.interp(x, xp, fp)` as numpy's `arr_interp` evaluates it on the
non-decreasing `xp` arising at this repository's call sites.  `c` counts the
entries of `xp` that are `≤ x`, so `j = c - 1` is the greatest index with
`xp[j] ≤ x` (numpy's binary search).  Below `xp[0]` the result is `fp[0]`;
when `x` reaches the last entry the result is the last `fp`; an exact hit
`xp[j] = x` returns `fp[j]`; otherwise interpolate linearly on segment
`[xp[j], xp[j+1]]`, whose length is positive in that branch. -/
def npInterp (x : ℚ) (xp fp : List ℚ) : ℚ :=
  if xp.countP (fun v => decide (v ≤ x)) = 0 then fp.headD 0
  else if xp.countP (fun v => decide (v ≤ x)) = xp.length then fp.getLastD 0
  else if xp.getD (xp.countP (fun v => decide (v ≤ x)) - 1) 0 = x then
    fp.getD (xp.countP (fun v => decide (v ≤ x)) - 1) 0
  else
    fp.getD (xp.countP (fun v => decide (v ≤ x)) - 1) 0 +
      (fp.getD (xp.countP (fun v => decide (v ≤ x))) 0 -
          fp.getD (xp.countP (fun v => decide (v ≤ x)) - 1) 0) *
        (x - xp.getD (xp.countP (fun v => decide (v ≤ x)) - 1) 0) /
        (xp.getD (xp.countP (fun v => decide (v ≤ x))) 0 -
          xp.getD (xp.countP (fun v => decide (v ≤ x)) - 1) 0)

/-- `np.cumsum` over rationals: entry `k` is the sum of the first `k + 1`
elements. -/
def npCumsum (l : List ℚ) : List ℚ :=
  (List.range l.length).map (fun k : ℕ => (l.take (k + 1)).sum)

/-- `array.min()` of a nonempty numpy array (the empty case raises, which
callers of this helper rule out or map to an error outcome). -/
def npMin (l : List ℚ) : ℚ :=
  match l with
  | [] => 0
  | a :: t => t.foldl min a

/-- `array.max()` of a nonempty numpy array. -/
def npMax (l : List ℚ) : ℚ :=
  match l with
  | [] => 0
  | a :: t => t.foldl max a

/-- `np.arange(start, stop, step)` for positive `step`, over exact rationals:
the values `start + k * step` for `0 ≤ k < ⌈(stop - start) / step⌉`. -/
def npArange (start stop step : ℚ) : List ℚ :=
  (List.range (⌈(stop - start) / step⌉).toNat).map
    (fun k : ℕ => start + (k : ℚ) * step)

/-- Interval-generation core of `GBMAnalysis.define_time_intervals`
(src/gbm_analysis.py lines 136-143): edges from `np.arange(start, stop, w)`,
keeping the bin `(t, t + w)` only when `t + w ≤ stop`. -/
def defineTimeIntervals (start stop w : ℚ) : List (ℚ × ℚ) :=
  ((npArange start stop w).filter (fun t => decide (t + w ≤ stop))).map
    (fun t => (t, t + w))

/-- Outcome of `T90Calculator.calculate`.  `raised` models a Python
exception escaping the call (numpy's reduction on an empty array, or
`np.interp` on arrays of unequal length); `nanTriple` models the silent
division by zero in the min-max normalization when the cumulative sum is
constant — numpy emits a warning and the returned floats are NaN, no
exception is raised. -/
inductive T90Outcome where
  | raised : T90Outcome
  | nanTriple : T90Outcome
  | ok : ℚ → ℚ → ℚ → T90Outcome
deriving DecidableEq

/-- The min-max-normalized cumulative sum
`(cumsum - cumsum.min()) / (cumsum.max() - cumsum.min())` of
`T90Calculator.calculate` (src/t90_calculator.py lines 22-23). -/
def normCumsum (counts : List ℚ) : List ℚ :=
  (npCumsum counts).map
    (fun v => (v - npMin (npCumsum counts)) /
      (npMax (npCumsum counts) - npMin (npCumsum counts)))

/-- `T5 = np.interp(0.05, cumulative, times)` (src/t90_calculator.py line 25). -/
def calcT5 (times counts : List ℚ) : ℚ := npInterp (1 / 20) (normCumsum counts) times

/-- `T95 = np.interp(0.95, cumulative, times)` (src/t90_calculator.py line 26). -/
def calcT95 (times counts : List ℚ) : ℚ := npInterp (19 / 20) (normCumsum counts) times

/-- `T90Calculator.calculate` (src/t90_calculator.py lines 19-29), with the
failure modes made explicit: an empty counts array makes `cumulative.min()`
raise; unequal `times`/`counts` lengths make `np.interp` raise; a constant
cumulative sum makes the normalization denominator zero, which numpy turns
into NaN values without raising.  What those NaNs then produce depends on
the array length: with a single sample, `np.interp` takes its dedicated
`lenxp == 1` path, where the below-`xp[0]`, above-`xp[0]` and exact-hit
results are all `fp[0]` — every comparison with the NaN `xp[0]` is false —
so the returned triple is the numeric `(times[0], times[0], 0.0)`; with two
or more samples the NaN `xp` reaches an interior segment whose slope is NaN
and the results are NaN.  Otherwise the returned triple is
`(T5, T95, T95 - T5)`. -/
def calculate (times counts : List ℚ) : T90Outcome :=
  if counts.isEmpty then .raised
  else if times.length ≠ counts.length then .raised
  else if npMax (npCumsum counts) - npMin (npCumsum counts) = 0 then
    if counts.length = 1 then
      .ok (times.headD 0) (times.headD 0) (times.headD 0 - times.headD 0)
    else .nanTriple
  else
    .ok (calcT5 times counts) (calcT95 times counts)
      (calcT95 times counts - calcT5 times counts)

/-- A PHAII light curve as `BurstDetector.detect` consumes it: trigger-relative
start time `time_range[0]`, the actual bin width of the binned data (the
pipeline's `DataLoader.create_phaii_from_tte` bins TTE at `1.024` s,
src/data_loader.py line 61), and per-time-bin, per-energy-channel counts. -/
structure Phaii where
  tstart : ℚ
  binWidth : ℚ
  chanCounts : List (List ℚ)

/-- `phaii.data.counts.sum(axis=1)` (src/burst_detector.py line 28): the
per-bin counts summed over energy channels. -/
def binCounts (p : Phaii) : List ℚ := p.chanCounts.map List.sum

/-- The noise variance of `BurstDetector.detect` (src/burst_detector.py
lines 36-38): the squared `np.std` of the counts strictly below the 50th
percentile.  When no count is below the median (e.g. a constant light
curve) the selected slice is empty and `np.std` yields NaN, modeled as
`none`. -/
def noiseVar (counts : List ℚ) : Option ℚ :=
  if (counts.filter (fun c => decide (c < npPercentile counts 50))).isEmpty then none
  else some (popVar (counts.filter (fun c => decide (c < npPercentile counts 50))))

/-- The per-sample comparison `count > threshold` with
`threshold = bkg_level + sigma * np.std(...)` (src/burst_detector.py
lines 36-41), decided exactly over ℚ: for `sigma ≥ 0` and noise variance
`v ≥ 0`, `c > bkg + sigma * sqrt v` holds iff `bkg < c` and
`sigma^2 * v < (c - bkg)^2` (the bridge lemma `sampleExceeds_iff` proves
this against `Real.sqrt`).  A NaN threshold (`v = none`) compares false for
every count, exactly as float NaN does. -/
def sampleExceeds (c bkg sigma : ℚ) (v : Option ℚ) : Bool :=
  match v with
  | none => false
  | some v0 => decide (bkg < c) && decide (sigma ^ 2 * v0 < (c - bkg) ^ 2)

/-- The boolean in-burst mask `counts > threshold` of `BurstDetector.detect`
(src/burst_detector.py line 41). -/
def burstMask (p : Phaii) (percentile sigma : ℚ) : List Bool :=
  (binCounts p).map
    (fun c => sampleExceeds c (npPercentile (binCounts p) percentile) sigma
      (noiseVar (binCounts p)))

/-- `BurstDetector.detect` (src/burst_detector.py lines 27-52).  `none`
models the raised `RuntimeError` (no burst detected) when no
sample exceeds the threshold.  The returned bounds reproduce the code's
hardcoded time axis `times = time_range[0] + np.arange(len(counts)) * 1.0`:
`burst_start = times[argmax(mask)]` and
`burst_end = times[len - argmax(reversed mask) - 1] + 1.0` — note the
`* 1` and `+ 1` are the literal `1.0`s of the source, not the light
curve's `binWidth`. -/
def detect (p : Phaii) (percentile sigma : ℚ) : Option (ℚ × ℚ) :=
  if (burstMask p percentile sigma).any (fun b => b) then
    some (p.tstart + ((burstMask p percentile sigma).findIdx (fun b => b) : ℚ) * 1,
      p.tstart + (((burstMask p percentile sigma).length - 1 -
        (burstMask p percentile sigma).reverse.findIdx (fun b => b) : ℕ) : ℚ) * 1 + 1)
  else none

/-- The failing light curve for the bin-width slip in `detect`: the
pipeline's actual `1.024` s binning (src/data_loader.py line 61), trigger
start `0`, one energy channel, counts `[0, 0, 10, 10, 100]`. -/
def detectCexPhaii : Phaii :=
  { tstart := 0, binWidth := 128 / 125,
    chanCounts := [[0], [0], [10], [10], [100]] }

/-- The configuration consumed by `SpectralFitterManager.fit_interval`
(src/spectral_fitter.py lines 103-106): the `eval_indices` whose relative
errors gate acceptance (numpy integer indices, possibly negative), the
`relative_error_threshold` (default `0.2`), and `max_fit_time`
(default `10`). -/
structure FitConfig where
  evalIndices : List ℤ
  errorThreshold : ℚ
  maxFitTime : ℚ

/-- What one call into the external fitter produces, as `fit_interval`
observes it.  `raised` — the `fitter.fit` call raised; `elapsed` — the
wall-clock duration of the call; `statistic = none` — `fitter.statistic` is
not finite (`np.isfinite` false); `covariance = none` — no covariance
matrix, and a `none` entry inside it is a NaN; `errs` — the asymmetric
errors `fitter.asymmetric_errors(cl=0.9)` (finite values); `params` —
`fitter.parameters`. -/
structure FitterOutcome where
  raised : Bool
  elapsed : ℚ
  statistic : Option ℚ
  covariance : Option (List (List (Option ℚ)))
  errs : List (ℚ × ℚ)
  params : List ℚ
  dof : ℚ

/-- One row per free parameter of the result dict built by
`_create_result_dict` (src/spectral_fitter.py lines 172-194):
`(value, err_low, err_high, rel_err_percent)`; parameter names are
positional here. -/
structure FitResult where
  t_start : ℚ
  t_stop : ℚ
  cstat : ℚ
  dof : ℚ
  paramRows : List (ℚ × ℚ × ℚ × ℚ)
deriving DecidableEq

/-- The `eps = 1e-10` floor of `fit_interval` (src/spectral_fitter.py
line 149). -/
def eps : ℚ := 1 / 10 ^ 10

/-- One entry of `rel_errs = np.mean(np.abs(errs) / np.maximum(np.abs(params[:, None]), eps), axis=1)`
(src/spectral_fitter.py lines 150-153): the mean over the two asymmetric
errors of `|err| / max(|value|, eps)`. -/
def relErr (p : ℚ) (e : ℚ × ℚ) : ℚ :=
  (|e.1| / max |p| eps + |e.2| / max |p| eps) / 2

/-- The full `rel_errs` vector, one entry per parameter. -/
def relErrsOf (params : List ℚ) (errs : List (ℚ × ℚ)) : List ℚ :=
  List.zipWith relErr params errs

/-- numpy fancy indexing `arr[idxs]` on a 1-d array: negative indices wrap
once, anything outside `[-n, n)` raises `IndexError` (`none`). -/
def npFancyIndex (l : List ℚ) (idxs : List ℤ) : Option (List ℚ) :=
  idxs.mapM (fun i =>
    if 0 ≤ i then l.get? i.toNat
    else if i + (l.length : ℤ) < 0 then none
    else l.get? (i + (l.length : ℤ)).toNat)

/-- The result dict of `_create_result_dict`: interval bounds, statistic,
dof, and per-parameter value/asymmetric errors/relative error in percent. -/
def mkResult (t0 t1 stat dof : ℚ) (params : List ℚ) (errs : List (ℚ × ℚ))
    (rel : List ℚ) : FitResult :=
  { t_start := t0, t_stop := t1, cstat := stat, dof := dof,
    paramRows := (params.zip (errs.zip rel)).map
      (fun pr => (pr.1, pr.2.1.1, pr.2.1.2, pr.2.2 * 100)) }

/-- `SpectralFitterManager.fit_interval` (src/spectral_fitter.py
lines 108-170) as a function of the fitter outcome: every failed check
returns `None` (a soft, logged rejection), in the source's order — fit call
raised, advisory timeout (`elapsed > max_fit_time`, checked after the call
returns), non-finite statistic, missing covariance, NaN in the covariance,
error/parameter length mismatch, `IndexError` from `rel_errs[eval_indices]`
(caught by the enclosing `try`), `np.max` of an empty selection (likewise),
and finally the strict `max_rel < error_threshold` gate. -/
def fitInterval (cfg : FitConfig) (out : FitterOutcome) (t0 t1 : ℚ) :
    Option FitResult :=
  if out.raised then none
  else if cfg.maxFitTime < out.elapsed then none
  else
    match out.statistic with
    | none => none
    | some stat =>
      match out.covariance with
      | none => none
      | some cov =>
        if cov.any (fun row => row.any (fun x => x.isNone)) then none
        else if out.errs.length ≠ out.params.length then none
        else
          match npFancyIndex (relErrsOf out.params out.errs) cfg.evalIndices with
          | none => none
          | some evalErrs =>
            if evalErrs.isEmpty then none
            else if npMax evalErrs < cfg.errorThreshold then
              some (mkResult t0 t1 stat out.dof out.params out.errs
                (relErrsOf out.params out.errs))
            else none

/-- `ResultsManager.save_results` (src/results_manager.py lines 27-49)
restricted to its observable table content: an empty result list yields an
empty table (no error), otherwise the rows are sorted by `t_start`
ascending (`df.sort_values('t_start')`). -/
def saveResults (results : List FitResult) : List FitResult :=
  if results.isEmpty then []
  else results.mergeSort (fun a b => decide (a.t_start ≤ b.t_start))

/-- The fit loop of `SpectralFitterManager.run_spectral_analysis`
(src/spectral_fitter.py lines 196-239): per interval, the deterministic
collaborators (data provider, background model, fitter — including the
wall-clock duration of the fit call) are abstracted into one function from
the interval to the observed fitter outcome, and accepted results are
collected in interval order. -/
def runSpectralAnalysis (cfg : FitConfig) (collab : ℚ × ℚ → FitterOutcome)
    (timeRanges : List (ℚ × ℚ)) : List FitResult :=
  timeRanges.filterMap (fun iv => fitInterval cfg (collab iv) iv.1 iv.2)

/-- The full orchestration observed by C8: run the spectral analysis, then
aggregate with `save_results`. -/
def pipelineTable (cfg : FitConfig) (collab : ℚ × ℚ → FitterOutcome)
    (timeRanges : List (ℚ × ℚ)) : List FitResult :=
  saveResults (runSpectralAnalysis cfg collab timeRanges)

/-- Heap of mutable model objects: Python objects are ids into a store of
parameter vectors; `deepcopy` allocates a fresh id, and the external
fitter writes through the id it is handed. -/
structure ModelHeap where
  store : ℕ → List ℚ
  nextId : ℕ

/-- The manager state relevant to C7: the heap and the id of
`self.model_template` (built once by `initialize_model`). -/
structure MgrState where
  heap : ModelHeap
  templateId : ℕ

/-- `SpectralFitterManager.create_model_for_interval` (src/spectral_fitter.py
lines 75-81): `deepcopy(self.model_template)` — allocate a fresh object
whose parameters copy the template's current parameters; the template
itself is not touched. -/
def createModelForInterval (s : MgrState) : ℕ × MgrState :=
  (s.heap.nextId,
    { s with
      heap :=
        { store := fun i =>
            if i = s.heap.nextId then s.heap.store s.templateId
            else s.heap.store i,
          nextId := s.heap.nextId + 1 } })

/-- `fitter.fit(model, ...)` mutates in place the model object it is handed:
the converged parameters are an arbitrary deterministic function of the
starting parameters and the interval, written through the object's id. -/
def fitModelInPlace (fit : List ℚ → ℚ × ℚ → List ℚ) (m : ℕ) (iv : ℚ × ℚ)
    (s : MgrState) : MgrState :=
  { s with
    heap :=
      { s.heap with
        store := fun i =>
          if i = m then fit (s.heap.store m) iv else s.heap.store i } }

/-- The per-interval model lifecycle of `fit_interval` (src/spectral_fitter.py
lines 108-121): create a fresh copy of the template, hand it to the fitter
(which mutates it in place), and record which object id and which starting
parameters the fitter received. -/
def fitIntervalModel (fit : List ℚ → ℚ × ℚ → List ℚ) (s : MgrState)
    (iv : ℚ × ℚ) : MgrState × (ℕ × List ℚ) :=
  ((fitModelInPlace fit (createModelForInterval s).1 iv (createModelForInterval s).2),
    ((createModelForInterval s).1,
      (createModelForInterval s).2.heap.store (createModelForInterval s).1))

/-- The fit loop over all intervals, tracking per interval the model id and
starting parameters handed to the fitter. -/
def runFitLoop (fit : List ℚ → ℚ × ℚ → List ℚ) (s : MgrState) :
    List (ℚ × ℚ) → MgrState × List (ℕ × List ℚ)
  | [] => (s, [])
  | iv :: ivs =>
    ((runFitLoop fit (fitIntervalModel fit s iv).1 ivs).1,
      (fitIntervalModel fit s iv).2 ::
        (runFitLoop fit (fitIntervalModel fit s iv).1 ivs).2)

/-- Python truthiness of an optional float attribute: present and nonzero
(`0.0` is falsy). -/
def truthyQ (x : Option ℚ) : Bool :=
  match x with
  | none => false
  | some v => decide (v ≠ 0)

/-- Python truthiness of an optional list attribute: present and nonempty. -/
def truthyList (x : Option (List (ℚ × ℚ))) : Bool :=
  match x with
  | none => false
  | some l => !l.isEmpty

/-- The dict returned by `GBMAnalysis.get_summary`. -/
structure Summary where
  T90 : Option ℚ
  burstDuration : Option ℚ
  numIntervals : ℕ
  validFits : ℕ
  successRate : ℚ
deriving DecidableEq

/-- `GBMAnalysis.get_summary` (src/gbm_analysis.py lines 214-222).  The
burst bounds are tested by numeric truthiness
(`if self.burst_start and self.burst_end`), not by comparison with None. -/
def getSummary (t90 : Option ℚ) (burst_start burst_end : Option ℚ)
    (time_ranges : Option (List (ℚ × ℚ))) (results : List FitResult) : Summary :=
  { T90 := t90,
    burstDuration :=
      if truthyQ burst_start && truthyQ burst_end then
        some (burst_end.getD 0 - burst_start.getD 0)
      else none,
    numIntervals :=
      if truthyList time_ranges then (time_ranges.getD []).length else 0,
    validFits := results.length,
    successRate :=
      if truthyList time_ranges && decide (0 < (time_ranges.getD []).length) then
        (results.length : ℚ) / ((time_ranges.getD []).length : ℚ)
      else 0 }

/-- A concrete external fitter for witnesses: converges to `[7]` from any
starting parameters. -/
def constFit : List ℚ → ℚ × ℚ → List ℚ := fun _ _ => [7]

/-- A concrete manager state for witnesses: template object `0` holding
parameters `[3]`, next free id `1`. -/
def mgrState0 : MgrState :=
  { heap := { store := fun i => if i = 0 then [3] else [], nextId := 1 },
    templateId := 0 }

/-- A filter on `List.range n` by a predicate that, below `n`, agrees with
`k < m` (for `m ≤ n`) yields `List.range m`. -/
lemma filter_range_eq_range (p : ℕ → Bool) :
    ∀ n m : ℕ, m ≤ n → (∀ k, k < n → (p k = true ↔ k < m)) →
      (List.range n).filter p = List.range m := by
  intro n
  induction n with
  | zero =>
    intro m hm _
    have hm0 : m = 0 := Nat.le_zero.mp hm
    subst hm0; rfl
  | succ n ih =>
    intro m hm hp
    rw [List.range_succ, List.filter_append]
    rcases Nat.lt_or_ge m (n + 1) with hmn | hmn
    · have hmn' : m ≤ n := Nat.lt_succ_iff.mp hmn
      rw [ih m hmn' (fun k hk => hp k (Nat.lt_succ_of_lt hk))]
      have hpn : p n = false := by
        rcases Bool.eq_false_or_eq_true (p n) with h | h
        · exact absurd ((hp n (Nat.lt_succ_self n)).mp h) (Nat.not_lt.mpr hmn')
        · exact h
      simp [hpn]
    · have hm' : m = n + 1 := le_antisymm hm hmn
      subst hm'
      have h1 : (List.range n).filter p = List.range n := by
        rw [ih n le_rfl (fun k hk => by
          constructor
          · intro _; exact hk
          · intro _; exact (hp k (Nat.lt_succ_of_lt hk)).mpr (Nat.lt_succ_of_lt hk))]
      have hpn : p n = true := (hp n (Nat.lt_succ_self n)).mpr (Nat.lt_succ_self n)
      rw [h1, List.range_succ]
      simp [hpn]

/-- Closed form of the segmenter for positive bin width: exactly the bins
`[start + k*w, start + (k+1)*w)` for `k < ⌊(stop - start)/w⌋`. -/
lemma defineTimeIntervals_eq (start stop w : ℚ) (hw : 0 < w) :
    defineTimeIntervals start stop w =
      (List.range (⌊(stop - start) / w⌋).toNat).map
        (fun k : ℕ => (start + (k : ℚ) * w, start + (k : ℚ) * w + w)) := by
  unfold defineTimeIntervals npArange
  rw [List.filter_map]
  set m : ℕ := (⌊(stop - start) / w⌋).toNat with hm
  set n : ℕ := (⌈(stop - start) / w⌉).toNat with hn
  have hmn : m ≤ n := by
    rw [hm, hn]
    exact Int.toNat_le_toNat (Int.floor_le_ceil _)
  have hfilter :
      (List.range n).filter
        ((fun t => decide (t + w ≤ stop)) ∘ (fun k : ℕ => start + (k : ℚ) * w)) =
        List.range m := by
    apply filter_range_eq_range _ n m hmn
    intro k _
    simp only [Function.comp_apply, decide_eq_true_eq]
    constructor
    · intro hk
      have h1 : ((k : ℚ) + 1) * w ≤ stop - start := by ring_nf; ring_nf at hk; linarith
      have h2 : ((k : ℚ) + 1) ≤ (stop - start) / w := (le_div_iff₀ hw).mpr h1
      have h3 : ((k : ℤ) + 1 : ℤ) ≤ ⌊(stop - start) / w⌋ := by
        rw [Int.le_floor]; push_cast; exact_mod_cast h2
      have h4 : (0 : ℤ) ≤ ⌊(stop - start) / w⌋ := le_trans (by positivity) h3
      omega
    · intro hk
      have h3 : ((k : ℤ) + 1 : ℤ) ≤ ⌊(stop - start) / w⌋ := by
        have : (k : ℤ) < (m : ℤ) := by exact_mod_cast hk
        omega
      have h2 : ((k : ℚ) + 1) ≤ (stop - start) / w := by
        have := (Int.le_floor.mp h3)
        push_cast at this
        exact_mod_cast this
      have h1 : ((k : ℚ) + 1) * w ≤ stop - start := (le_div_iff₀ hw).mp h2
      nlinarith
  rw [hfilter, List.map_map]
  rfl

/-- C4: for all `start < stop` and bin width `w > 0`, the segmenter returns
intervals that are pairwise non-overlapping, in ascending time order, each of
width exactly `w`, all contained within `[start, stop]`, and the number of
intervals equals `⌊(stop-start)/w⌋` — a trailing partial bin is dropped, never
emitted. -/
theorem segmenter_spec (start stop w : ℚ) (hlt : start < stop) (hw : 0 < w) :
    (defineTimeIntervals start stop w).length = (⌊(stop - start) / w⌋).toNat ∧
    (∀ p ∈ defineTimeIntervals start stop w,
      p.2 - p.1 = w ∧ start ≤ p.1 ∧ p.2 ≤ stop) ∧
    (∀ i j : ℕ, ∀ hi : i < (defineTimeIntervals start stop w).length,
      ∀ hj : j < (defineTimeIntervals start stop w).length, i < j →
        ((defineTimeIntervals start stop w).get ⟨i, hi⟩).1 <
            ((defineTimeIntervals start stop w).get ⟨j, hj⟩).1 ∧
          ((defineTimeIntervals start stop w).get ⟨i, hi⟩).2 ≤
            ((defineTimeIntervals start stop w).get ⟨j, hj⟩).1) := by
  rw [defineTimeIntervals_eq start stop w hw]
  set m : ℕ := (⌊(stop - start) / w⌋).toNat with hm
  refine ⟨by simp, ?_, ?_⟩
  · intro p hp
    simp only [List.mem_map, List.mem_range] at hp
    obtain ⟨k, hk, hkeq⟩ := hp
    subst hkeq
    refine ⟨by ring, ?_, ?_⟩
    · show start ≤ start + (k : ℚ) * w
      nlinarith [Nat.cast_nonneg (α := ℚ) k]
    · show start + (k : ℚ) * w + w ≤ stop
      have h3 : ((k : ℤ) + 1 : ℤ) ≤ ⌊(stop - start) / w⌋ := by
        have : (k : ℤ) < (m : ℤ) := by exact_mod_cast hk
        omega
      have h2 : ((k : ℚ) + 1) ≤ (stop - start) / w := by
        have := Int.le_floor.mp h3
        push_cast at this
        exact_mod_cast this
      have h1 : ((k : ℚ) + 1) * w ≤ stop - start := (le_div_iff₀ hw).mp h2
      nlinarith
  · intro i j hi hj hij
    simp only [List.length_map, List.length_range] at hi hj
    simp only [List.get_eq_getElem, List.getElem_map, List.getElem_range]
    have hcast : (i : ℚ) + 1 ≤ (j : ℚ) := by exact_mod_cast hij
    constructor
    · have : (i : ℚ) < (j : ℚ) := by exact_mod_cast hij
      nlinarith
    · nlinarith

/-- Concrete check of `segmenter_spec`: `segment(80, 121, 1)` yields exactly
`⌊41⌋ = 41` unit-width bins. -/
theorem segmenter_spec_witness :
    (defineTimeIntervals 80 121 1).length = 41 := by
  have h := (segmenter_spec 80 121 1 (by norm_num) (by norm_num)).1
  rw [h]
  norm_num
  rfl

/-- The default value of `headD` is irrelevant on a nonempty list. -/
lemma headD_eq_getD (l : List ℚ) (h : l ≠ []) : l.headD 0 = l.getD 0 0 := by
  cases l with
  | nil => exact absurd rfl h
  | cons a t => rfl

/-- `getLastD` is indexing at `length - 1` on a nonempty list. -/
lemma getLastD_eq_getD (l : List ℚ) (h : l ≠ []) : l.getLastD 0 = l.getD (l.length - 1) 0 := by
  have hlt : l.length - 1 < l.length := by
    cases l with
    | nil => exact absurd rfl h
    | cons a t => simp
  rw [List.getLastD_eq_getLast?, List.getLast?_eq_getLast l h, Option.getD_some,
    List.getLast_eq_getElem l h, List.getD_eq_getElem l 0 hlt]

/-- Indexing a `(· ≤ ·)`-sorted list is monotone in the index. -/
lemma sorted_getD_mono (l : List ℚ) (hs : l.Sorted (· ≤ ·)) {i k : ℕ}
    (hik : i ≤ k) (hk : k < l.length) : l.getD i 0 ≤ l.getD k 0 := by
  rcases eq_or_lt_of_le hik with rfl | hlt
  · exact le_refl _
  · rw [List.getD_eq_getElem l 0 (lt_trans hlt hk), List.getD_eq_getElem l 0 hk]
    exact List.pairwise_iff_getElem.mp hs i k (lt_trans hlt hk) hk hlt

/-- Counting the entries `≤ x` is monotone in `x`. -/
lemma countP_le_mono (xp : List ℚ) {x1 x2 : ℚ} (h : x1 ≤ x2) :
    xp.countP (fun v => decide (v ≤ x1)) ≤ xp.countP (fun v => decide (v ≤ x2)) := by
  apply List.countP_mono_left
  intro v _ hv
  simp only [decide_eq_true_eq] at hv ⊢
  linarith

/-- In a sorted list, the last entry counted by `countP (· ≤ x)` is `≤ x`. -/
lemma sorted_countP_getD_le (x : ℚ) :
    ∀ xp : List ℚ, xp.Sorted (· ≤ ·) → 1 ≤ xp.countP (fun v => decide (v ≤ x)) →
      xp.getD (xp.countP (fun v => decide (v ≤ x)) - 1) 0 ≤ x := by
  intro xp
  induction xp with
  | nil => intro _ hc; rw [List.countP_nil] at hc; omega
  | cons a t ih =>
    intro hs hc
    obtain ⟨hat, hts⟩ := List.sorted_cons.mp hs
    by_cases hax : a ≤ x
    · rw [List.countP_cons] at hc ⊢
      simp only [decide_eq_true_eq, hax, if_true]
      rcases Nat.eq_zero_or_pos (t.countP (fun v => decide (v ≤ x))) with h0 | h1
      · simp [h0, hax]
      · have hidx : t.countP (fun v => decide (v ≤ x)) + 1 - 1 =
            (t.countP (fun v => decide (v ≤ x)) - 1) + 1 := by omega
        rw [hidx, List.getD_cons_succ]
        exact ih hts h1
    · have h0 : t.countP (fun v => decide (v ≤ x)) = 0 := by
        rw [List.countP_eq_zero]
        intro v hv
        simp only [decide_eq_true_eq]
        intro hvx
        exact hax (le_trans (hat v hv) hvx)
      rw [List.countP_cons] at hc
      simp [h0, hax] at hc

/-- In a sorted list, the first entry not counted by `countP (· ≤ x)` is `> x`. -/
lemma sorted_countP_getD_gt (x : ℚ) :
    ∀ xp : List ℚ, xp.Sorted (· ≤ ·) →
      xp.countP (fun v => decide (v ≤ x)) < xp.length →
      x < xp.getD (xp.countP (fun v => decide (v ≤ x))) 0 := by
  intro xp
  induction xp with
  | nil => intro _ hc; simp at hc
  | cons a t ih =>
    intro hs hc
    obtain ⟨hat, hts⟩ := List.sorted_cons.mp hs
    by_cases hax : a ≤ x
    · rw [List.countP_cons] at hc ⊢
      simp only [decide_eq_true_eq, hax, if_true] at hc ⊢
      rw [List.getD_cons_succ]
      exact ih hts (by simpa using hc)
    · have h0 : t.countP (fun v => decide (v ≤ x)) = 0 := by
        rw [List.countP_eq_zero]
        intro v hv
        simp only [decide_eq_true_eq]
        intro hvx
        exact hax (le_trans (hat v hv) hvx)
      rw [List.countP_cons]
      simp only [decide_eq_true_eq, hax, if_false, h0]
      simpa using lt_of_not_le hax

/-- Branch evaluation of `npInterp`: `x` below every entry of `xp`. -/
lemma npInterp_eval_low (x : ℚ) (xp fp : List ℚ)
    (h0 : xp.countP (fun v => decide (v ≤ x)) = 0) :
    npInterp x xp fp = fp.headD 0 := by
  unfold npInterp
  rw [if_pos h0]

/-- Branch evaluation of `npInterp`: every entry of `xp` is `≤ x`. -/
lemma npInterp_eval_high (x : ℚ) (xp fp : List ℚ)
    (h0 : xp.countP (fun v => decide (v ≤ x)) ≠ 0)
    (hn : xp.countP (fun v => decide (v ≤ x)) = xp.length) :
    npInterp x xp fp = fp.getLastD 0 := by
  unfold npInterp
  rw [if_neg h0, if_pos hn]

/-- Branch evaluation of `npInterp`: exact hit on an entry of `xp`. -/
lemma npInterp_eval_hit (x : ℚ) (xp fp : List ℚ)
    (h0 : xp.countP (fun v => decide (v ≤ x)) ≠ 0)
    (hn : xp.countP (fun v => decide (v ≤ x)) ≠ xp.length)
    (hhit : xp.getD (xp.countP (fun v => decide (v ≤ x)) - 1) 0 = x) :
    npInterp x xp fp = fp.getD (xp.countP (fun v => decide (v ≤ x)) - 1) 0 := by
  unfold npInterp
  rw [if_neg h0, if_neg hn, if_pos hhit]

/-- Branch evaluation of `npInterp`: proper linear interpolation. -/
lemma npInterp_eval_lin (x : ℚ) (xp fp : List ℚ)
    (h0 : xp.countP (fun v => decide (v ≤ x)) ≠ 0)
    (hn : xp.countP (fun v => decide (v ≤ x)) ≠ xp.length)
    (hhit : xp.getD (xp.countP (fun v => decide (v ≤ x)) - 1) 0 ≠ x) :
    npInterp x xp fp =
      fp.getD (xp.countP (fun v => decide (v ≤ x)) - 1) 0 +
        (fp.getD (xp.countP (fun v => decide (v ≤ x))) 0 -
            fp.getD (xp.countP (fun v => decide (v ≤ x)) - 1) 0) *
          (x - xp.getD (xp.countP (fun v => decide (v ≤ x)) - 1) 0) /
          (xp.getD (xp.countP (fun v => decide (v ≤ x))) 0 -
            xp.getD (xp.countP (fun v => decide (v ≤ x)) - 1) 0) := by
  unfold npInterp
  rw [if_neg h0, if_neg hn, if_neg hhit]

/-- On an interior segment, `npInterp` lies between the two neighbouring
`fp` entries. -/
lemma npInterp_between (x : ℚ) (xp fp : List ℚ) (hxs : xp.Sorted (· ≤ ·))
    (hfs : fp.Sorted (· ≤ ·)) (hlen : xp.length = fp.length)
    (hc1 : 1 ≤ xp.countP (fun v => decide (v ≤ x)))
    (hc2 : xp.countP (fun v => decide (v ≤ x)) < xp.length) :
    fp.getD (xp.countP (fun v => decide (v ≤ x)) - 1) 0 ≤ npInterp x xp fp ∧
      npInterp x xp fp ≤ fp.getD (xp.countP (fun v => decide (v ≤ x))) 0 := by
  have h0 : xp.countP (fun v => decide (v ≤ x)) ≠ 0 := by omega
  have hn : xp.countP (fun v => decide (v ≤ x)) ≠ xp.length := by omega
  have hmono : fp.getD (xp.countP (fun v => decide (v ≤ x)) - 1) 0 ≤
      fp.getD (xp.countP (fun v => decide (v ≤ x))) 0 :=
    sorted_getD_mono fp hfs (by omega) (by omega)
  by_cases hhit : xp.getD (xp.countP (fun v => decide (v ≤ x)) - 1) 0 = x
  · rw [npInterp_eval_hit x xp fp h0 hn hhit]
    exact ⟨le_refl _, hmono⟩
  · rw [npInterp_eval_lin x xp fp h0 hn hhit]
    have ha : xp.getD (xp.countP (fun v => decide (v ≤ x)) - 1) 0 ≤ x :=
      sorted_countP_getD_le x xp hxs hc1
    have ha' : xp.getD (xp.countP (fun v => decide (v ≤ x)) - 1) 0 < x :=
      lt_of_le_of_ne ha hhit
    have hb : x < xp.getD (xp.countP (fun v => decide (v ≤ x))) 0 :=
      sorted_countP_getD_gt x xp hxs hc2
    set a := xp.getD (xp.countP (fun v => decide (v ≤ x)) - 1) 0 with hadef
    set b := xp.getD (xp.countP (fun v => decide (v ≤ x))) 0 with hbdef
    set fa := fp.getD (xp.countP (fun v => decide (v ≤ x)) - 1) 0 with hfadef
    set fb := fp.getD (xp.countP (fun v => decide (v ≤ x))) 0 with hfbdef
    have hd : 0 < b - a := by linarith
    have hr0 : 0 ≤ (x - a) / (b - a) := div_nonneg (by linarith) (by linarith)
    have hr1 : (x - a) / (b - a) ≤ 1 := le_of_lt ((div_lt_one hd).mpr (by linarith))
    rw [mul_div_assoc]
    constructor
    · nlinarith [mul_nonneg (sub_nonneg.mpr hmono) hr0]
    · nlinarith [mul_le_mul_of_nonneg_left hr1 (sub_nonneg.mpr hmono)]

/-- `npInterp` always returns a value within the range spanned by a sorted
`fp`. -/
lemma npInterp_within (x : ℚ) (xp fp : List ℚ) (hxs : xp.Sorted (· ≤ ·))
    (hfs : fp.Sorted (· ≤ ·)) (hlen : xp.length = fp.length) (hne : xp ≠ []) :
    fp.headD 0 ≤ npInterp x xp fp ∧ npInterp x xp fp ≤ fp.getLastD 0 := by
  have hxlen : 0 < xp.length := List.length_pos.mpr hne
  have hfne : fp ≠ [] := by
    intro hfp
    rw [hfp, List.length_nil] at hlen
    exact hne (List.length_eq_zero.mp hlen)
  have hflen : 0 < fp.length := List.length_pos.mpr hfne
  rw [headD_eq_getD fp hfne, getLastD_eq_getD fp hfne]
  have hcle : xp.countP (fun v => decide (v ≤ x)) ≤ xp.length :=
    List.countP_le_length _
  rcases Nat.eq_zero_or_pos (xp.countP (fun v => decide (v ≤ x))) with h0 | h1
  · rw [npInterp_eval_low x xp fp h0, headD_eq_getD fp hfne]
    exact ⟨le_refl _, sorted_getD_mono fp hfs (by omega) (by omega)⟩
  · rcases Nat.lt_or_ge (xp.countP (fun v => decide (v ≤ x))) xp.length with hlt | hge
    · have hbet := npInterp_between x xp fp hxs hfs hlen h1 hlt
      constructor
      · exact le_trans (sorted_getD_mono fp hfs (Nat.zero_le _) (by omega)) hbet.1
      · exact le_trans hbet.2 (sorted_getD_mono fp hfs (by omega) (by omega))
    · have hn : xp.countP (fun v => decide (v ≤ x)) = xp.length := le_antisymm hcle hge
      rw [npInterp_eval_high x xp fp (by omega) hn, getLastD_eq_getD fp hfne]
      exact ⟨sorted_getD_mono fp hfs (Nat.zero_le _) (by omega), le_refl _⟩

/-- `npInterp` is monotone in the query point over sorted `xp` and `fp`. -/
lemma npInterp_mono (x1 x2 : ℚ) (h12 : x1 ≤ x2) (xp fp : List ℚ)
    (hxs : xp.Sorted (· ≤ ·)) (hfs : fp.Sorted (· ≤ ·))
    (hlen : xp.length = fp.length) (hne : xp ≠ []) :
    npInterp x1 xp fp ≤ npInterp x2 xp fp := by
  have hxlen : 0 < xp.length := List.length_pos.mpr hne
  have hfne : fp ≠ [] := by
    intro hfp
    rw [hfp, List.length_nil] at hlen
    exact hne (List.length_eq_zero.mp hlen)
  have hcc : xp.countP (fun v => decide (v ≤ x1)) ≤
      xp.countP (fun v => decide (v ≤ x2)) := countP_le_mono xp h12
  have hc1le : xp.countP (fun v => decide (v ≤ x1)) ≤ xp.length :=
    List.countP_le_length _
  have hc2le : xp.countP (fun v => decide (v ≤ x2)) ≤ xp.length :=
    List.countP_le_length _
  rcases Nat.eq_zero_or_pos (xp.countP (fun v => decide (v ≤ x1))) with h10 | h11
  · rw [npInterp_eval_low x1 xp fp h10, headD_eq_getD fp hfne]
    rcases Nat.eq_zero_or_pos (xp.countP (fun v => decide (v ≤ x2))) with h20 | h21
    · rw [npInterp_eval_low x2 xp fp h20, headD_eq_getD fp hfne]
    · rcases Nat.lt_or_ge (xp.countP (fun v => decide (v ≤ x2))) xp.length with hlt | hge
      · exact le_trans (sorted_getD_mono fp hfs (Nat.zero_le _) (by omega))
          (npInterp_between x2 xp fp hxs hfs hlen h21 hlt).1
      · rw [npInterp_eval_high x2 xp fp (by omega) (le_antisymm hc2le hge),
          getLastD_eq_getD fp hfne]
        exact sorted_getD_mono fp hfs (Nat.zero_le _) (by omega)
  · rcases Nat.lt_or_ge (xp.countP (fun v => decide (v ≤ x1))) xp.length with hlt1 | hge1
    · have hbet1 := npInterp_between x1 xp fp hxs hfs hlen h11 hlt1
      rcases Nat.lt_or_ge (xp.countP (fun v => decide (v ≤ x2))) xp.length with hlt2 | hge2
      · have hbet2 := npInterp_between x2 xp fp hxs hfs hlen
          (le_trans h11 hcc) hlt2
        rcases Nat.lt_or_ge (xp.countP (fun v => decide (v ≤ x1)))
          (xp.countP (fun v => decide (v ≤ x2))) with hss | hse
        · exact le_trans hbet1.2 (le_trans
            (sorted_getD_mono fp hfs (by omega) (by omega)) hbet2.1)
        · have hceq : xp.countP (fun v => decide (v ≤ x1)) =
              xp.countP (fun v => decide (v ≤ x2)) := le_antisymm hcc hse
          by_cases hhit1 : xp.getD (xp.countP (fun v => decide (v ≤ x1)) - 1) 0 = x1
          · rw [npInterp_eval_hit x1 xp fp (by omega) (by omega) hhit1, hceq]
            exact hbet2.1
          · have ha1 : xp.getD (xp.countP (fun v => decide (v ≤ x1)) - 1) 0 < x1 :=
              lt_of_le_of_ne (sorted_countP_getD_le x1 xp hxs h11) hhit1
            have hhit2 : xp.getD (xp.countP (fun v => decide (v ≤ x2)) - 1) 0 ≠ x2 := by
              rw [← hceq]
              intro heq
              rw [heq] at ha1
              linarith
            have hb2 : x2 < xp.getD (xp.countP (fun v => decide (v ≤ x2))) 0 :=
              sorted_countP_getD_gt x2 xp hxs hlt2
            rw [npInterp_eval_lin x1 xp fp (by omega) (by omega) hhit1,
              npInterp_eval_lin x2 xp fp (by omega) (by omega) hhit2, ← hceq]
            set a := xp.getD (xp.countP (fun v => decide (v ≤ x1)) - 1) 0 with hadef
            set b := xp.getD (xp.countP (fun v => decide (v ≤ x1))) 0 with hbdef
            set fa := fp.getD (xp.countP (fun v => decide (v ≤ x1)) - 1) 0 with hfadef
            set fb := fp.getD (xp.countP (fun v => decide (v ≤ x1))) 0 with hfbdef
            have hb2' : x2 < b := by rw [hbdef, hceq]; exact hb2
            have hd : 0 < b - a := by linarith
            have hfafb : fa ≤ fb := sorted_getD_mono fp hfs (by omega) (by omega)
            have hdiv : (x1 - a) / (b - a) ≤ (x2 - a) / (b - a) :=
              div_le_div_of_nonneg_right (by linarith) (by linarith)
            rw [mul_div_assoc, mul_div_assoc]
            nlinarith [mul_le_mul_of_nonneg_left hdiv (sub_nonneg.mpr hfafb)]
      · rw [npInterp_eval_high x2 xp fp (by omega) (le_antisymm hc2le hge2),
          getLastD_eq_getD fp hfne]
        exact le_trans hbet1.2 (sorted_getD_mono fp hfs (by omega) (by omega))
    · have hc1n : xp.countP (fun v => decide (v ≤ x1)) = xp.length :=
        le_antisymm hc1le hge1
      have hc2n : xp.countP (fun v => decide (v ≤ x2)) = xp.length :=
        le_antisymm hc2le (le_trans hge1 hcc)
      rw [npInterp_eval_high x1 xp fp (by omega) hc1n,
        npInterp_eval_high x2 xp fp (by omega) hc2n]

/-- `npCumsum` preserves length. -/
lemma npCumsum_length (l : List ℚ) : (npCumsum l).length = l.length := by
  simp [npCumsum]

/-- Indexed entry of `npCumsum`. -/
lemma npCumsum_getD (l : List ℚ) {k : ℕ} (hk : k < l.length) :
    (npCumsum l).getD k 0 = (l.take (k + 1)).sum := by
  have hk' : k < (npCumsum l).length := by rw [npCumsum_length]; exact hk
  rw [List.getD_eq_getElem _ _ hk']
  simp [npCumsum]

/-- Prefix sums of a list of non-negative entries are monotone. -/
lemma sum_take_mono (l : List ℚ) (h : ∀ c ∈ l, 0 ≤ c) {i j : ℕ} (hij : i ≤ j) :
    (l.take i).sum ≤ (l.take j).sum := by
  have h1 : (l.take j).take i = l.take i := by
    rw [List.take_take, min_eq_left hij]
  have h2 : ((l.take j).take i).sum + ((l.take j).drop i).sum = (l.take j).sum := by
    rw [← List.sum_append, List.take_append_drop]
  have h3 : 0 ≤ ((l.take j).drop i).sum :=
    List.sum_nonneg fun v hv =>
      h v (List.mem_of_mem_take (List.mem_of_mem_drop hv))
  rw [h1] at h2
  linarith

/-- The cumulative sum of non-negative counts is sorted. -/
lemma npCumsum_sorted (l : List ℚ) (h : ∀ c ∈ l, 0 ≤ c) :
    (npCumsum l).Sorted (· ≤ ·) := by
  rw [List.Sorted, List.pairwise_iff_getElem]
  intro i j hi hj hij
  simp only [npCumsum, List.getElem_map, List.getElem_range] at hi hj ⊢
  simp only [List.length_map, List.length_range] at hi hj
  exact sum_take_mono l h (by omega)

/-- The first cumulative-sum entry is the first count. -/
lemma npCumsum_headD (l : List ℚ) (h : l ≠ []) :
    (npCumsum l).headD 0 = l.headD 0 := by
  have hlen : 0 < l.length := List.length_pos.mpr h
  have hne : npCumsum l ≠ [] := by
    intro hc
    rw [← List.length_eq_zero, npCumsum_length] at hc
    omega
  rw [headD_eq_getD _ hne, npCumsum_getD l hlen]
  cases l with
  | nil => exact absurd rfl h
  | cons a t => simp

/-- The last cumulative-sum entry is the total sum. -/
lemma npCumsum_getLastD (l : List ℚ) (h : l ≠ []) :
    (npCumsum l).getLastD 0 = l.sum := by
  have hlen : 0 < l.length := List.length_pos.mpr h
  have hne : npCumsum l ≠ [] := by
    intro hc
    rw [← List.length_eq_zero, npCumsum_length] at hc
    omega
  rw [getLastD_eq_getD _ hne, npCumsum_length, npCumsum_getD l (by omega)]
  have : l.length - 1 + 1 = l.length := by omega
  rw [this, List.take_length]

/-- Folding `min` over later elements of a sorted list keeps the head. -/
lemma foldl_min_of_le : ∀ (t : List ℚ) (a : ℚ), (∀ v ∈ t, a ≤ v) →
    t.foldl min a = a := by
  intro t
  induction t with
  | nil => intro a _; rfl
  | cons b t' ih =>
    intro a h
    have hab : min a b = a := min_eq_left (h b (by simp))
    simp only [List.foldl_cons, hab]
    exact ih a fun v hv => h v (by simp [hv])

/-- On a sorted nonempty list, `npMin` is the head. -/
lemma npMin_sorted (l : List ℚ) (hs : l.Sorted (· ≤ ·)) (h : l ≠ []) :
    npMin l = l.headD 0 := by
  cases l with
  | nil => exact absurd rfl h
  | cons a t =>
    obtain ⟨hat, _⟩ := List.sorted_cons.mp hs
    simp only [npMin, List.headD_cons]
    exact foldl_min_of_le t a hat

/-- Folding `max` over a sorted tail reaches the last element. -/
lemma foldl_max_sorted : ∀ (t : List ℚ) (a : ℚ), (a :: t).Sorted (· ≤ ·) →
    t.foldl max a = (a :: t).getLastD 0 := by
  intro t
  induction t with
  | nil => intro a _; rfl
  | cons b t' ih =>
    intro a hs
    obtain ⟨hat, hts⟩ := List.sorted_cons.mp hs
    have hab : max a b = b := max_eq_right (hat b (by simp))
    simp only [List.foldl_cons, hab]
    rw [ih b hts]
    have h1 : (b :: t') ≠ [] := by simp
    have h2 : (a :: b :: t') ≠ [] := by simp
    rw [getLastD_eq_getD _ h1, getLastD_eq_getD _ h2]
    simp only [List.length_cons]
    rw [show t'.length + 1 + 1 - 1 = t'.length + 1 by omega, List.getD_cons_succ]
    congr 1

/-- On a sorted nonempty list, `npMax` is the last element. -/
lemma npMax_sorted (l : List ℚ) (hs : l.Sorted (· ≤ ·)) (h : l ≠ []) :
    npMax l = l.getLastD 0 := by
  cases l with
  | nil => exact absurd rfl h
  | cons a t => exact foldl_max_sorted t a hs

/-- The total is the head plus the sum of the remaining entries. -/
lemma sum_headD_drop (l : List ℚ) (h : l ≠ []) :
    l.sum = l.headD 0 + (l.drop 1).sum := by
  cases l with
  | nil => exact absurd rfl h
  | cons a t => simp

/-- `normCumsum` preserves length. -/
lemma normCumsum_length (counts : List ℚ) :
    (normCumsum counts).length = counts.length := by
  simp [normCumsum, npCumsum_length]

/-- With a positive normalization denominator, `normCumsum` of non-negative
counts is sorted. -/
lemma normCumsum_sorted (counts : List ℚ) (hnn : ∀ c ∈ counts, 0 ≤ c)
    (hden : 0 < npMax (npCumsum counts) - npMin (npCumsum counts)) :
    (normCumsum counts).Sorted (· ≤ ·) := by
  unfold normCumsum
  refine List.Pairwise.map _ ?_ (npCumsum_sorted counts hnn)
  intro v1 v2 h12
  exact div_le_div_of_nonneg_right (by linarith) (le_of_lt hden)

/-- C5 (amended): for every light curve with matching array lengths,
non-negative counts, sorted times, and at least one positive count after the
first sample (so that the min-max normalization denominator is positive —
the extra hypothesis the code forces), `calculate` returns a numeric triple
with `T90 = T95 - T5`, `T5 ≤ T95`, and both `T5` and `T95` inside the light
curve's time span. -/
theorem calculate_t90_spec (times counts : List ℚ)
    (hlen : times.length = counts.length)
    (hnn : ∀ c ∈ counts, 0 ≤ c)
    (hts : times.Sorted (· ≤ ·))
    (hpos : 0 < (counts.drop 1).sum) :
    calculate times counts =
      T90Outcome.ok (calcT5 times counts) (calcT95 times counts)
        (calcT95 times counts - calcT5 times counts) ∧
    calcT5 times counts ≤ calcT95 times counts ∧
    times.headD 0 ≤ calcT5 times counts ∧
    calcT95 times counts ≤ times.getLastD 0 := by
  have hne : counts ≠ [] := by
    intro h
    rw [h] at hpos
    simp at hpos
  have hsum : counts.sum = counts.headD 0 + (counts.drop 1).sum :=
    sum_headD_drop counts hne
  have hcne : npCumsum counts ≠ [] := by
    intro hc
    rw [← List.length_eq_zero, npCumsum_length] at hc
    exact hne (List.length_eq_zero.mp hc)
  have hcs : (npCumsum counts).Sorted (· ≤ ·) := npCumsum_sorted counts hnn
  have hmn : npMin (npCumsum counts) = counts.headD 0 := by
    rw [npMin_sorted _ hcs hcne, npCumsum_headD counts hne]
  have hmx : npMax (npCumsum counts) = counts.sum := by
    rw [npMax_sorted _ hcs hcne, npCumsum_getLastD counts hne]
  have hden : 0 < npMax (npCumsum counts) - npMin (npCumsum counts) := by
    rw [hmx, hmn, hsum]
    linarith
  have hns : (normCumsum counts).Sorted (· ≤ ·) := normCumsum_sorted counts hnn hden
  have hnlen : (normCumsum counts).length = times.length := by
    rw [normCumsum_length, hlen]
  have hnne : normCumsum counts ≠ [] := by
    intro h
    rw [← List.length_eq_zero, normCumsum_length] at h
    exact hne (List.length_eq_zero.mp h)
  refine ⟨?_, ?_, ?_, ?_⟩
  · unfold calculate
    rw [if_neg (fun h => hne (List.isEmpty_iff.mp h)),
      if_neg (fun h : times.length ≠ counts.length => h hlen),
      if_neg (ne_of_gt hden)]
  · exact npInterp_mono (1 / 20) (19 / 20) (by norm_num) _ times hns hts hnlen hnne
  · exact (npInterp_within (1 / 20) _ times hns hts hnlen hnne).1
  · exact (npInterp_within (19 / 20) _ times hns hts hnlen hnne).2

/-- Concrete instance of `calculate_t90_spec` on the light curve
`times = [0, 1]`, `counts = [1, 1]`. -/
theorem calculate_t90_spec_witness :
    calcT5 [0, 1] [1, 1] ≤ calcT95 [0, 1] [1, 1] :=
  (calculate_t90_spec [0, 1] [1, 1] rfl (by norm_num) (by norm_num)
    (by norm_num)).2.1

/-- C5 counterexample: `counts = [5, 0]` has non-negative entries and a
positive total, yet the cumulative sum is constant, so `calculate` returns
the NaN triple instead of numeric T5/T95/T90 values — the claim's
hypotheses do not suffice. -/
theorem calculate_t90_cex :
    (0 : ℚ) ≤ 5 ∧ (0 : ℚ) ≤ 0 ∧ (0 : ℚ) < ([5, 0] : List ℚ).sum ∧
      calculate [0, 1] [5, 0] = T90Outcome.nanTriple := by
  refine ⟨by norm_num, by norm_num, by norm_num, ?_⟩
  norm_num [calculate, npCumsum, npMin, npMax, List.range_succ, List.foldl]

/-- C3 counterexample: with total counts zero the code does not raise any
error — the min-max normalization silently divides by zero and `calculate`
yields the NaN triple. -/
theorem calculate_degenerate_cex :
    calculate [0, 1] [0, 0] = T90Outcome.nanTriple ∧
      calculate [0, 1] [0, 0] ≠ T90Outcome.raised := by
  have h : calculate [0, 1] [0, 0] = T90Outcome.nanTriple := by
    norm_num [calculate, npCumsum, npMin, npMax, List.range_succ, List.foldl]
  exact ⟨h, by rw [h]; intro hc; exact T90Outcome.noConfusion hc⟩

/-- C3 (amended): in the degenerate cases (zero total counts with
non-negative entries, or fewer than 2 samples) no dedicated error is ever
raised: with two or more samples the result is the NaN triple (numpy warns
and propagates NaN); with exactly one sample `np.interp`'s single-point
path ignores the NaN and the numeric triple `(times[0], times[0], 0.0)` is
returned; only an empty counts array raises — a generic numpy reduction
error, not a `DegenerateSignalError`. -/
theorem calculate_degenerate_spec (times counts : List ℚ)
    (hlen : times.length = counts.length)
    (hnn : ∀ c ∈ counts, 0 ≤ c)
    (hdeg : counts.sum = 0 ∨ counts.length < 2) :
    calculate times counts =
      (if counts.isEmpty then T90Outcome.raised
       else if counts.length = 1 then
         T90Outcome.ok (times.headD 0) (times.headD 0)
           (times.headD 0 - times.headD 0)
       else T90Outcome.nanTriple) := by
  cases counts with
  | nil => rfl
  | cons a t =>
    have hne : (a :: t) ≠ [] := by simp
    have hcs : (npCumsum (a :: t)).Sorted (· ≤ ·) := npCumsum_sorted _ hnn
    have hcne : npCumsum (a :: t) ≠ [] := by
      intro hc
      rw [← List.length_eq_zero, npCumsum_length] at hc
      exact hne (List.length_eq_zero.mp hc)
    have hmn : npMin (npCumsum (a :: t)) = a := by
      rw [npMin_sorted _ hcs hcne, npCumsum_headD _ hne]
      rfl
    have hmx : npMax (npCumsum (a :: t)) = (a :: t).sum := by
      rw [npMax_sorted _ hcs hcne, npCumsum_getLastD _ hne]
    have hden : npMax (npCumsum (a :: t)) - npMin (npCumsum (a :: t)) = 0 := by
      rcases hdeg with hsum | hlen2
      · have hts0 : 0 ≤ t.sum := List.sum_nonneg fun v hv => hnn v (by simp [hv])
        have ha0 : 0 ≤ a := hnn a (by simp)
        have hsum' : a + t.sum = 0 := by simpa using hsum
        rw [hmx, hmn, List.sum_cons]
        linarith
      · have ht : t = [] := by
          have h0 : t.length = 0 := by
            simp only [List.length_cons] at hlen2
            omega
          exact List.length_eq_zero.mp h0
        subst ht
        rw [hmx, hmn]
        simp
    have h1 : ¬((a :: t).isEmpty = true) := by simp
    have h2 : ¬(times.length ≠ (a :: t).length) := fun h => h hlen
    unfold calculate
    simp only [if_neg h1, if_neg h2, if_pos hden]

/-- Concrete instance of `calculate_degenerate_spec`: a single-sample light
curve at time `2` yields the numeric triple `(2, 2, 0)` — `np.interp`'s
single-point path ignores the NaN normalization — and raises no error. -/
theorem calculate_degenerate_spec_witness :
    calculate [2] [5] = T90Outcome.ok 2 2 0 := by
  have h := calculate_degenerate_spec [2] [5] rfl (by norm_num) (Or.inr (by norm_num))
  simpa using h

/-- `sampleExceeds` decides exactly the float comparison
`count > bkg + sigma * sqrt(var)` of the source, for non-negative `sigma`
and variance. -/
lemma sampleExceeds_iff (c bkg sigma v : ℚ) (hs : 0 ≤ sigma) (hv : 0 ≤ v) :
    sampleExceeds c bkg sigma (some v) = true ↔
      (bkg : ℝ) + (sigma : ℝ) * Real.sqrt (v : ℝ) < (c : ℝ) := by
  unfold sampleExceeds
  rw [Bool.and_eq_true, decide_eq_true_eq, decide_eq_true_eq]
  have hv' : (0 : ℝ) ≤ (v : ℝ) := by exact_mod_cast hv
  have hs' : (0 : ℝ) ≤ (sigma : ℝ) := by exact_mod_cast hs
  have hsq : ((sigma : ℝ) * Real.sqrt (v : ℝ)) ^ 2 = (sigma : ℝ) ^ 2 * (v : ℝ) := by
    rw [mul_pow, Real.sq_sqrt hv']
  have hnn : 0 ≤ (sigma : ℝ) * Real.sqrt (v : ℝ) :=
    mul_nonneg hs' (Real.sqrt_nonneg _)
  constructor
  · rintro ⟨h1, h2⟩
    have h1' : (bkg : ℝ) < (c : ℝ) := by exact_mod_cast h1
    have h2' : (sigma : ℝ) ^ 2 * (v : ℝ) < ((c : ℝ) - (bkg : ℝ)) ^ 2 := by
      exact_mod_cast h2
    have h3 : ((sigma : ℝ) * Real.sqrt (v : ℝ)) ^ 2 < ((c : ℝ) - (bkg : ℝ)) ^ 2 := by
      rw [hsq]; exact h2'
    have h4 : (sigma : ℝ) * Real.sqrt (v : ℝ) < (c : ℝ) - (bkg : ℝ) :=
      lt_of_pow_lt_pow_left₀ 2 (by linarith) h3
    linarith
  · intro h
    have h1 : (bkg : ℝ) < (c : ℝ) := by nlinarith [hnn]
    have h4 : (sigma : ℝ) * Real.sqrt (v : ℝ) < (c : ℝ) - (bkg : ℝ) := by linarith
    have h3 : ((sigma : ℝ) * Real.sqrt (v : ℝ)) ^ 2 < ((c : ℝ) - (bkg : ℝ)) ^ 2 :=
      pow_lt_pow_left₀ h4 hnn (by norm_num)
    rw [hsq] at h3
    exact ⟨by exact_mod_cast h1, by exact_mod_cast h3⟩

/-- C6: `detect` raises the no-burst error if and only if no sample's count
strictly exceeds the computed threshold
`bkg_level + sigma_threshold * noise_std` (NaN threshold included: then no
comparison succeeds and the error is always raised); when it raises, no
burst interval is returned. -/
theorem detect_none_iff (p : Phaii) (percentile sigma : ℚ) :
    detect p percentile sigma = none ↔
      ∀ c ∈ binCounts p,
        sampleExceeds c (npPercentile (binCounts p) percentile) sigma
          (noiseVar (binCounts p)) = false := by
  unfold detect
  by_cases h : (burstMask p percentile sigma).any (fun b => b)
  · rw [if_pos h]
    constructor
    · intro hc
      exact absurd hc (by simp)
    · intro hall
      exfalso
      rw [List.any_eq_true] at h
      obtain ⟨b, hb, hbt⟩ := h
      unfold burstMask at hb
      rw [List.mem_map] at hb
      obtain ⟨c, hc, hceq⟩ := hb
      rw [← hceq, hall c hc] at hbt
      exact Bool.false_ne_true hbt
  · rw [if_neg h]
    rw [Bool.not_eq_true, List.any_eq_false] at h
    constructor
    · intro _ c hc
      have := h (sampleExceeds c (npPercentile (binCounts p) percentile) sigma
        (noiseVar (binCounts p)))
        (by unfold burstMask; exact List.mem_map.mpr ⟨c, hc, rfl⟩)
      simpa using this
    · intro _
      rfl

/-- Concrete instance of `detect_none_iff`: on a flat light curve no count
is below the median, the noise std is NaN, no sample exceeds the threshold,
and the no-burst error is raised. -/
theorem detect_none_iff_witness :
    detect ⟨0, 1, [[1], [1]]⟩ 50 5 = none := by
  have hcounts : binCounts ⟨0, 1, [[1], [1]]⟩ = [1, 1] := by
    norm_num [binCounts]
  have hperc : npPercentile [1, 1] 50 = 1 := by
    unfold npPercentile
    rw [List.mergeSort_eq_self (by norm_num)]
    norm_num [show Int.toNat 0 = 0 from rfl, List.getElem_cons_succ,
      List.getElem_cons_zero]
  have hvar : noiseVar [1, 1] = none := by
    unfold noiseVar
    simp only [hperc]
    norm_num [List.filter_cons, List.filter_nil]
  refine (detect_none_iff ⟨0, 1, [[1], [1]]⟩ 50 5).mpr ?_
  intro c hc
  rw [hcounts, hvar]
  rfl

/-- C2: on the pipeline's own light curves the detector's returned bounds
are not the light curve's sample times.  For the failing input
(`1.024` s bins, counts `[0, 0, 10, 10, 100]`, `percentile_for_bkg = 50`,
`sigma_threshold = 5`) only sample 4 is in-burst, and the code returns
`(4.0, 5.0)` — built from a hardcoded `1.0` s time grid — while the time of
the in-burst sample is `tstart + 4 * binWidth = 4.096` and that time plus
one bin width is `5.12`. -/
theorem detect_hardcoded_binwidth_bug :
    detect detectCexPhaii 50 5 = some (4, 5) ∧
    detectCexPhaii.tstart + (4 : ℚ) * detectCexPhaii.binWidth = 512 / 125 ∧
    detectCexPhaii.tstart + (4 : ℚ) * detectCexPhaii.binWidth +
      detectCexPhaii.binWidth = 128 / 25 ∧
    (4 : ℚ) ≠ 512 / 125 ∧ (5 : ℚ) ≠ 128 / 25 := by
  have hcounts : binCounts detectCexPhaii = [0, 0, 10, 10, 100] := by
    norm_num [binCounts, detectCexPhaii]
  have hsorted : List.Sorted (· ≤ ·) ([0, 0, 10, 10, 100] : List ℚ) := by norm_num
  have hperc : npPercentile [0, 0, 10, 10, 100] 50 = 10 := by
    unfold npPercentile
    rw [List.mergeSort_eq_self hsorted]
    norm_num [show Int.toNat 2 = 2 from rfl, List.getElem_cons_succ,
      List.getElem_cons_zero]
  have hfil : ([0, 0, 10, 10, 100] : List ℚ).filter
      (fun c => decide (c < npPercentile [0, 0, 10, 10, 100] 50)) = [0, 0] := by
    simp only [hperc]
    norm_num [List.filter_cons, List.filter_nil]
  have hvar : noiseVar [0, 0, 10, 10, 100] = some 0 := by
    unfold noiseVar
    rw [hfil]
    norm_num [popVar, npMean]
  have hmask : burstMask detectCexPhaii 50 5 = [false, false, false, false, true] := by
    unfold burstMask
    rw [hcounts]
    simp only [hperc, hvar]
    simp only [List.map_cons, List.map_nil, sampleExceeds]
    norm_num
  refine ⟨?_, by norm_num [detectCexPhaii], by norm_num [detectCexPhaii],
    by norm_num, by norm_num⟩
  unfold detect
  rw [hmask]
  norm_num [List.findIdx_cons, detectCexPhaii]

/-- C1: a `FitResult` is returned only if the fit call completed without
raising, the fit statistic is finite, a covariance matrix exists with no NaN
entries, the asymmetric-error array has the same length as the parameter
vector, and the maximum over the configured `eval_indices` of the
per-parameter mean relative error is strictly below the configured
threshold; a maximum exactly equal to the threshold is rejected (hence any
single failed criterion rejects the interval). -/
theorem fit_interval_gate (cfg : FitConfig) (out : FitterOutcome) (t0 t1 : ℚ) :
    (∀ r, fitInterval cfg out t0 t1 = some r →
      out.raised = false ∧
      out.statistic.isSome = true ∧
      (∃ cov, out.covariance = some cov ∧
        cov.any (fun row => row.any (fun x => x.isNone)) = false) ∧
      out.errs.length = out.params.length ∧
      (∃ evalErrs,
        npFancyIndex (relErrsOf out.params out.errs) cfg.evalIndices =
          some evalErrs ∧
        npMax evalErrs < cfg.errorThreshold)) ∧
    (∀ evalErrs,
      npFancyIndex (relErrsOf out.params out.errs) cfg.evalIndices =
        some evalErrs →
      npMax evalErrs = cfg.errorThreshold →
      fitInterval cfg out t0 t1 = none) := by
  have part1 : ∀ r, fitInterval cfg out t0 t1 = some r →
      out.raised = false ∧
      out.statistic.isSome = true ∧
      (∃ cov, out.covariance = some cov ∧
        cov.any (fun row => row.any (fun x => x.isNone)) = false) ∧
      out.errs.length = out.params.length ∧
      (∃ evalErrs,
        npFancyIndex (relErrsOf out.params out.errs) cfg.evalIndices =
          some evalErrs ∧
        npMax evalErrs < cfg.errorThreshold) := by
    intro r h
    unfold fitInterval at h
    by_cases h1 : out.raised = true
    · rw [if_pos h1] at h
      exact absurd h (by simp)
    rw [if_neg h1] at h
    by_cases h2 : cfg.maxFitTime < out.elapsed
    · rw [if_pos h2] at h
      exact absurd h (by simp)
    rw [if_neg h2] at h
    cases hs : out.statistic with
    | none => rw [hs] at h; exact absurd h (by simp)
    | some stat =>
    rw [hs] at h
    dsimp only at h
    cases hc : out.covariance with
    | none => rw [hc] at h; exact absurd h (by simp)
    | some cov =>
    rw [hc] at h
    dsimp only at h
    by_cases h3 : cov.any (fun row => row.any (fun x => x.isNone)) = true
    · rw [if_pos h3] at h
      exact absurd h (by simp)
    rw [if_neg h3] at h
    by_cases h4 : out.errs.length ≠ out.params.length
    · rw [if_pos h4] at h
      exact absurd h (by simp)
    rw [if_neg h4] at h
    cases hi : npFancyIndex (relErrsOf out.params out.errs) cfg.evalIndices with
    | none => rw [hi] at h; exact absurd h (by simp)
    | some evalErrs =>
    rw [hi] at h
    dsimp only at h
    by_cases h5 : evalErrs.isEmpty = true
    · rw [if_pos h5] at h
      exact absurd h (by simp)
    rw [if_neg h5] at h
    by_cases h6 : npMax evalErrs < cfg.errorThreshold
    · refine ⟨Bool.not_eq_true _ |>.mp h1, rfl,
        ⟨cov, rfl, Bool.not_eq_true _ |>.mp h3⟩, not_not.mp h4,
        evalErrs, rfl, h6⟩
    · rw [if_neg h6] at h
      exact absurd h (by simp)
  refine ⟨part1, ?_⟩
  intro evalErrs hidx heq
  cases hfi : fitInterval cfg out t0 t1 with
  | none => rfl
  | some r =>
    exfalso
    obtain ⟨-, -, -, -, evalErrs', hidx', hlt⟩ := part1 r hfi
    rw [hidx] at hidx'
    cases hidx'
    rw [heq] at hlt
    exact lt_irrefl _ hlt

/-- Concrete instance of `fit_interval_gate`: with one parameter `1`,
asymmetric errors both `1/5`, and threshold exactly `1/5`, the maximal
relative error equals the threshold and the interval is rejected. -/
theorem fit_interval_gate_witness :
    fitInterval ⟨[0], 1 / 5, 10⟩
      ⟨false, 1, some 100, some [[some 1]], [(1 / 5, 1 / 5)], [1], 9⟩ 0 1 =
      none := by
  have hidx : npFancyIndex
      (relErrsOf ([1] : List ℚ) ([(1 / 5, 1 / 5)] : List (ℚ × ℚ))) [0] =
      some [1 / 5] := by
    have h : relErrsOf ([1] : List ℚ) ([(1 / 5, 1 / 5)] : List (ℚ × ℚ)) =
        [1 / 5] := by
      norm_num [relErrsOf, relErr, eps]
    rw [npFancyIndex, h]
    norm_num [List.mapM.loop]
  exact (fit_interval_gate ⟨[0], 1 / 5, 10⟩
    ⟨false, 1, some 100, some [[some 1]], [(1 / 5, 1 / 5)], [1], 9⟩ 0 1).2
    [1 / 5] hidx (by norm_num [npMax])

/-- C9: the aggregated table is sorted by `t_start` ascending for every
input list (the output is a permutation of the input rows), and the empty
input yields the empty table rather than an error. -/
theorem save_results_spec (results : List FitResult) :
    List.Pairwise (fun a b : FitResult => a.t_start ≤ b.t_start)
      (saveResults results) ∧
    (saveResults results).Perm results ∧
    saveResults ([] : List FitResult) = [] := by
  refine ⟨?_, ?_, rfl⟩
  · unfold saveResults
    by_cases h : results.isEmpty
    · rw [if_pos h]
      exact List.Pairwise.nil
    · rw [if_neg h]
      have hs := @List.sorted_mergeSort FitResult
        (fun a b => decide (a.t_start ≤ b.t_start))
        (fun a b c hab hbc => by
          simp only [decide_eq_true_eq] at hab hbc ⊢
          exact le_trans hab hbc)
        (fun a b => by
          simp only [Bool.or_eq_true, decide_eq_true_eq]
          exact le_total a.t_start b.t_start)
        results
      exact hs.imp (fun hab => by simpa using hab)
  · unfold saveResults
    by_cases h : results.isEmpty
    · rw [if_pos h, List.isEmpty_iff.mp h]
    · rw [if_neg h]
      exact List.mergeSort_perm results _

/-- C8: the orchestration is deterministic given deterministic
collaborators — two runs over equal inputs whose collaborator functions
agree on every interval produce identical aggregated tables (same rows,
same values, same order). -/
theorem pipeline_deterministic (cfg1 cfg2 : FitConfig)
    (collab1 collab2 : ℚ × ℚ → FitterOutcome)
    (trs1 trs2 : List (ℚ × ℚ))
    (hcfg : cfg1 = cfg2) (hco : ∀ iv, collab1 iv = collab2 iv)
    (htrs : trs1 = trs2) :
    pipelineTable cfg1 collab1 trs1 = pipelineTable cfg2 collab2 trs2 := by
  subst hcfg
  subst htrs
  rw [funext hco]

/-- Concrete instance of `pipeline_deterministic` with two syntactically
different but pointwise-equal collaborator functions. -/
theorem pipeline_deterministic_witness :
    pipelineTable ⟨[0], 1 / 5, 10⟩
      (fun _ => ⟨true, 0, none, none, [], [], 0⟩) [(0, 1)] =
    pipelineTable ⟨[0], 1 / 5, 10⟩
      (fun iv => if iv.1 = iv.1 then ⟨true, 0, none, none, [], [], 0⟩
        else ⟨false, 0, none, none, [], [], 0⟩) [(0, 1)] :=
  pipeline_deterministic _ _ _ _ _ _ rfl (fun iv => by simp) rfl

/-- C7: in the fit loop, every model object handed to the external fitter
is a fresh copy distinct from the template object, its starting parameters
are always the template's original parameters (never a previous interval's
converged parameters), and the template's parameter state is unchanged
after the whole run. -/
theorem model_template_isolation (fit : List ℚ → ℚ × ℚ → List ℚ) :
    ∀ (ivs : List (ℚ × ℚ)) (s : MgrState), s.templateId < s.heap.nextId →
      (runFitLoop fit s ivs).1.heap.store s.templateId =
        s.heap.store s.templateId ∧
      (runFitLoop fit s ivs).1.templateId = s.templateId ∧
      ∀ pr ∈ (runFitLoop fit s ivs).2,
        pr.1 ≠ s.templateId ∧ pr.2 = s.heap.store s.templateId := by
  intro ivs
  induction ivs with
  | nil =>
    intro s _
    exact ⟨rfl, rfl, by simp [runFitLoop]⟩
  | cons iv ivs ih =>
    intro s hfresh
    have hne : s.templateId ≠ s.heap.nextId := Nat.ne_of_lt hfresh
    have hstep_state : (fitIntervalModel fit s iv).1.templateId = s.templateId := rfl
    have hstore : (fitIntervalModel fit s iv).1.heap.store s.templateId =
        s.heap.store s.templateId := by
      simp only [fitIntervalModel, fitModelInPlace, createModelForInterval]
      simp [hne]
    have hnext : (fitIntervalModel fit s iv).1.heap.nextId = s.heap.nextId + 1 := rfl
    have hrec := ih (fitIntervalModel fit s iv).1
      (by rw [hstep_state, hnext]; omega)
    obtain ⟨h1, h2, h3⟩ := hrec
    refine ⟨h1.trans hstore, h2.trans hstep_state, ?_⟩
    intro pr hpr
    have hsplit : (runFitLoop fit s (iv :: ivs)).2 =
        (fitIntervalModel fit s iv).2 ::
          (runFitLoop fit (fitIntervalModel fit s iv).1 ivs).2 := rfl
    rw [hsplit] at hpr
    rcases List.mem_cons.mp hpr with heq | hmem
    · subst heq
      constructor
      · show (fitIntervalModel fit s iv).2.1 ≠ s.templateId
        show s.heap.nextId ≠ s.templateId
        omega
      · show (fitIntervalModel fit s iv).2.2 = s.heap.store s.templateId
        simp only [fitIntervalModel, createModelForInterval]
        simp
    · have hmemr := h3 pr hmem
      exact ⟨hmemr.1, hmemr.2.trans hstore⟩

/-- Concrete instance of `model_template_isolation`: two intervals fitted
with a constant fitter leave the template parameters `[3]` unchanged. -/
theorem model_template_isolation_witness :
    (runFitLoop constFit mgrState0 [(0, 1), (1, 2)]).1.heap.store 0 = [3] := by
  have h := (model_template_isolation constFit [(0, 1), (1, 2)] mgrState0
    (by norm_num [mgrState0])).1
  simpa [mgrState0] using h

/-- C10: after a successful detection with `burst_start` exactly `0.0`,
`get_summary` reports `Burst_duration` as `None` (numeric truthiness), and
whenever both bounds are present and nonzero it reports
`burst_end - burst_start`. -/
theorem get_summary_truthiness (t90 : Option ℚ) (be : ℚ)
    (trs : Option (List (ℚ × ℚ))) (results : List FitResult) :
    (getSummary t90 (some 0) (some be) trs results).burstDuration = none ∧
    ∀ bs be' : ℚ, bs ≠ 0 → be' ≠ 0 →
      (getSummary t90 (some bs) (some be') trs results).burstDuration =
        some (be' - bs) := by
  constructor
  · simp [getSummary, truthyQ]
  · intro bs be' hbs hbe
    simp [getSummary, truthyQ, hbs, hbe]

/-- Concrete instance of `get_summary_truthiness`: bounds `1` and `3` give
duration `2`. -/
theorem get_summary_truthiness_witness :
    (getSummary none (some 1) (some 3) none []).burstDuration = some 2 := by
  have h := (get_summary_truthiness none 3 none []).2 1 3 (by norm_num)
    (by norm_num)
  rw [show (3 : ℚ) - 1 = 2 by norm_num] at h
  exact h

/-- Concrete instance of `save_results_spec`: the empty result list yields
the empty table. -/
theorem save_results_spec_witness :
    saveResults ([] : List FitResult) = [] :=
  (save_results_spec []).2.2

end GRB
